/-
Verification development for the beacon-skill repository: a shallow
embedding of the trust and replay-protection layer (TOFU key store,
inbox processor, client replay guard, relay registration/heartbeat
state machine) with theorems settling the frozen claims.

Conventions of the embedding:
- Python byte strings are lists of naturals (each byte < 256 where it
  matters); Python hex strings are Lean strings.
- Python float timestamps are modelled as naturals: the code only
  stores and compares them, so the ordered-semiring structure of Nat
  suffices.
- Fallible Python code (bytes.fromhex raising ValueError) is modelled
  with Option / Except.
- The persistent key store (a JSON object keyed by agent_id) is an
  association list with unique keys; dict update keeps the position of
  an existing key and appends a new one, which updS mirrors.
- SHA-256 and Ed25519 are external libraries for this repository; they
  enter the embedding as explicit function parameters (sha gives the
  hex digest of a byte string, verify checks a signature), exactly as
  the code treats hashlib and the identity module.
-/
import Mathlib

namespace Beacon

/-! ## Hex encoding and decoding (Python bytes.fromhex / bytes.hex) -/

/-- Value of one hex digit, as Python bytes.fromhex accepts them
(0-9, a-f, A-F); any other character makes decoding fail. -/
def hexDigitVal (c : Char) : Option Nat :=
  if '0' ≤ c ∧ c ≤ '9' then some (c.toNat - 48)
  else if 'a' ≤ c ∧ c ≤ 'f' then some (c.toNat - 87)
  else if 'A' ≤ c ∧ c ≤ 'F' then some (c.toNat - 55)
  else none

/-- Decode a list of hex characters two at a time; an odd-length or
non-hex input yields none, modelling the ValueError bytes.fromhex
raises.  (bytes.fromhex also skips ASCII whitespace; no claim involves
hex with embedded whitespace, so that is not modelled.) -/
def hexDecodeChars : List Char → Option (List Nat)
  | [] => some []
  | [_] => none
  | hi :: lo :: rest => do
      let h ← hexDigitVal hi
      let l ← hexDigitVal lo
      let r ← hexDecodeChars rest
      pure ((16 * h + l) :: r)

/-- Python bytes.fromhex, returning none where Python raises. -/
def hexDecode (s : String) : Option (List Nat) :=
  hexDecodeChars s.data

/-- Lowercase hex digit for a value below 16 (Python bytes.hex is
lowercase). -/
def hexDigitChar (n : Nat) : Char :=
  if n < 10 then Char.ofNat (48 + n) else Char.ofNat (87 + n)

/-- Hex characters of a byte string, two per byte. -/
def hexEncodeChars : List Nat → List Char
  | [] => []
  | b :: rest => hexDigitChar (b / 16) :: hexDigitChar (b % 16) :: hexEncodeChars rest

/-- Python bytes.hex. -/
def hexEncode (bs : List Nat) : String :=
  String.mk (hexEncodeChars bs)

/-! ## Identity derivation

From src/fix_ping_security.py (agent_id_from_pubkey_hex) and, for the
byte-level client version, modelled from the spec: the client module
beacon_skill/identity.py is not among the repository files given, and
the spec states the invariant agent_id = "bcn_" plus the first 12 hex
characters of SHA-256 of the raw public key bytes, computed by one
pure function shared by client and server. -/

/-- Modelled from the spec: the client-side derivation in the missing
beacon_skill/identity.py, a pure function of the raw public key bytes;
sha is the hex digest of SHA-256, an external library. -/
def agent_id_from_pubkey (sha : List Nat → String) (pubkeyBytes : List Nat) : String :=
  "bcn_" ++ (sha pubkeyBytes).take 12

/-- From src/fix_ping_security.py: decode the hex pubkey and derive the
agent id; bytes.fromhex raises on malformed hex, hence the Option. -/
def agent_id_from_pubkey_hex (sha : List Nat → String) (pubkeyHex : String) : Option String :=
  (hexDecode pubkeyHex).map (fun bs => agent_id_from_pubkey sha bs)

/-! ## TOFU key store (src/beacon_skill/inbox.py) -/

/-- Default key TTL: 30 days in seconds. -/
def DEFAULT_KEY_TTL_SECONDS : Nat := 30 * 24 * 60 * 60

/-- One record of known_keys.json, exactly the object trust_key
writes. -/
structure Record where
  pubkey_hex : String
  first_seen : Nat
  last_seen : Nat
  rotation_count : Nat
  previous_keys : List String
  ttl_seconds : Nat
deriving DecidableEq

/-- Update a key of the association-list store in place, or append a
new binding, matching Python dict assignment order. -/
def updS (k : String) (v : Record) : List (String × Record) → List (String × Record)
  | [] => [(k, v)]
  | (k', v') :: t => if k = k' then (k, v) :: t else (k', v') :: updS k v t

/-- Delete a key from the store (Python del). -/
def delS (k : String) : List (String × Record) → List (String × Record)
  | [] => []
  | (k', v') :: t => if k = k' then t else (k', v') :: delS k t

/-- trust_key from src/beacon_skill/inbox.py, with the store and the
current time passed explicitly instead of read from disk and the
clock; returns the boolean result and the store as saved. -/
def trust_key (store : List (String × Record)) (now : Nat)
    (agent_id pubkey_hex : String) (allow_rotate : Bool) :
    Bool × List (String × Record) :=
  match List.lookup agent_id store with
  | some existing =>
      if existing.pubkey_hex = pubkey_hex then
        (true, updS agent_id { existing with last_seen := now } store)
      else if allow_rotate = false then
        (false, store)
      else
        let previous :=
          if existing.pubkey_hex ≠ "" ∧ existing.pubkey_hex ∉ existing.previous_keys
          then existing.previous_keys ++ [existing.pubkey_hex]
          else existing.previous_keys
        (true, updS agent_id
          { pubkey_hex := pubkey_hex
            first_seen := existing.first_seen
            last_seen := now
            rotation_count := existing.rotation_count + 1
            previous_keys := previous
            ttl_seconds := existing.ttl_seconds } store)
  | none =>
      (true, updS agent_id
        { pubkey_hex := pubkey_hex
          first_seen := now
          last_seen := now
          rotation_count := 0
          previous_keys := []
          ttl_seconds := DEFAULT_KEY_TTL_SECONDS } store)

/-- revoke_key from src/beacon_skill/inbox.py. -/
def revoke_key (store : List (String × Record)) (agent_id : String) :
    Bool × List (String × Record) :=
  match List.lookup agent_id store with
  | some _ => (true, delS agent_id store)
  | none => (false, store)

/-- rotate_key from src/beacon_skill/inbox.py: verify the signature of
the new pubkey bytes against the currently stored pubkey, then rotate
via trust_key with allow_rotate.  verify stands for
AgentIdentity.verify (pubkey hex, signature hex, message bytes); the
try/except around bytes.fromhex becomes the Option match. -/
def rotate_key (verify : String → String → List Nat → Bool)
    (store : List (String × Record)) (now : Nat)
    (agent_id new_pubkey_hex : String) (signed_by_old_key : List Nat) :
    Bool × List (String × Record) :=
  match List.lookup agent_id store with
  | none => (false, store)
  | some existing =>
      if existing.pubkey_hex = "" then (false, store)
      else
        match hexDecode new_pubkey_hex with
        | none => (false, store)
        | some new_pubkey_bytes =>
            if verify existing.pubkey_hex (hexEncode signed_by_old_key) new_pubkey_bytes
            then trust_key store now agent_id new_pubkey_hex true
            else (false, store)

/-- is_key_expired from src/beacon_skill/inbox.py: now - last_seen
strictly above the ttl.  Nat subtraction truncates at zero exactly
where the Python float difference is negative, and a negative
difference is never strictly above a nonnegative ttl, so the two
agree. -/
def is_key_expired (meta : Record) (now : Nat) : Bool :=
  decide (meta.ttl_seconds < now - meta.last_seen)

/-- load_known_keys_simple from src/beacon_skill/inbox.py: the legacy
agent_id to pubkey_hex view, with expired keys dropped. -/
def load_known_keys_simple (store : List (String × Record)) (now : Nat) :
    List (String × String) :=
  store.filterMap (fun p => if is_key_expired p.2 now then none else some (p.1, p.2.pubkey_hex))

/-! ## Inbox processor (src/beacon_skill/inbox.py) -/

/-- A candidate envelope as read_inbox sees it: a JSON object whose
security-relevant string fields default to empty when absent (env.get
with an empty default). -/
structure Env where
  agent_id : String := ""
  pubkey : String := ""
  sig : String := ""
  nonce : String := ""
  kind : String := ""
deriving DecidableEq

/-- One parsed line of inbox.jsonl: the envelopes list, the raw text
(empty when absent) and the received_at timestamp (0 when absent). -/
structure Entry where
  envelopes : List Env := []
  text : String := ""
  received_at : Nat := 0
deriving DecidableEq

/-- The Python exception a modelled fragment can raise:
bytes.fromhex on malformed hex raises ValueError. -/
inductive PyErr where
  | valueError
deriving DecidableEq

/-- _learn_key_from_envelope from src/beacon_skill/inbox.py.  The
in-memory dict passed in by read_inbox (mem) and the on-disk store the
nested rotate_key call reads and writes (disk) are threaded
separately, because the source keeps them separate: rotate_key loads
and saves the file itself while the dict held by read_inbox is not
updated on that path.  The two bytes.fromhex calls are not guarded by
any try/except in the source, so malformed hex is a raised ValueError,
not a skip. -/
def learnKey (sha : List Nat → String) (verify : String → String → List Nat → Bool)
    (now : Nat) (env : Env) (mem disk : List (String × Record)) :
    Except PyErr (List (String × Record) × List (String × Record)) :=
  if env.agent_id ≠ "" ∧ env.pubkey ≠ "" then
    match hexDecode env.pubkey with
    | none => .error .valueError
    | some pubkeyBytes =>
        if agent_id_from_pubkey sha pubkeyBytes = env.agent_id then
          match List.lookup env.agent_id mem with
          | some existing =>
              if existing.pubkey_hex = env.pubkey then
                .ok (updS env.agent_id { existing with last_seen := now } mem, disk)
              else if env.sig ≠ "" then
                match hexDecode env.sig with
                | none => .error .valueError
                | some sigBytes =>
                    .ok (mem, (rotate_key verify disk now env.agent_id env.pubkey sigBytes).2)
              else
                .ok (mem, disk)
          | none =>
              .ok (updS env.agent_id
                { pubkey_hex := env.pubkey
                  first_seen := now
                  last_seen := now
                  rotation_count := 0
                  previous_keys := []
                  ttl_seconds := DEFAULT_KEY_TTL_SECONDS } mem, disk)
        else
          .ok (mem, disk)
  else
    .ok (mem, disk)

/-- The caller filters of read_inbox; None and the Python-falsy values
(empty string, zero) leave a filter inactive, as the source tests
truthiness, not presence. -/
structure Filters where
  kind : Option String := none
  agent_id : Option String := none
  since : Option Nat := none
  unread_only : Bool := false
  limit : Option Nat := none

/-- Truthiness of an optional string argument. -/
def truthyS : Option String → Bool
  | none => false
  | some s => s ≠ ""

/-- Truthiness of an optional numeric argument. -/
def truthyN : Option Nat → Bool
  | none => false
  | some n => n ≠ 0

/-- One enriched result entry of read_inbox. -/
structure InboxResult where
  entry : Entry
  envelope : Option Env
  verified : Option Bool
  is_read : Bool
deriving DecidableEq

/-- The filter tests applied to an envelope entry, in source order;
true means the entry is kept. -/
def keepEnv (fl : Filters) (entry : Entry) (env : Env) (isRead : Bool) : Bool :=
  !(truthyS fl.kind && decide (env.kind ≠ fl.kind.getD "")) &&
  !(truthyS fl.agent_id && decide (env.agent_id ≠ fl.agent_id.getD "")) &&
  !(truthyN fl.since && decide (entry.received_at < fl.since.getD 0)) &&
  !(fl.unread_only && isRead)

/-- The inner envelope loop of read_inbox: learn keys, verify against
the simple view computed once at scan start, consult the read-nonce
set, filter, and accumulate enriched results.  veri stands for
codec.verify_envelope (tri-state: none when no key is known). -/
def processEnvs (sha : List Nat → String) (verify : String → String → List Nat → Bool)
    (veri : Env → List (String × String) → Option Bool)
    (now : Nat) (fl : Filters) (simple : List (String × String))
    (readNonces : List String) (entry : Entry) :
    List Env → List (String × Record) → List (String × Record) →
    Except PyErr (List (String × Record) × List (String × Record) × List InboxResult)
  | [], mem, disk => .ok (mem, disk, [])
  | env :: rest, mem, disk =>
      match learnKey sha verify now env mem disk with
      | .error e => .error e
      | .ok (mem', disk') =>
          let verified := veri env simple
          let isRead := env.nonce ≠ "" && readNonces.contains env.nonce
          match processEnvs sha verify veri now fl simple readNonces entry rest mem' disk' with
          | .error e => .error e
          | .ok (memF, diskF, results) =>
              let results :=
                if keepEnv fl entry env isRead then
                  { entry := entry, envelope := some env,
                    verified := verified, is_read := isRead } :: results
                else results
              .ok (memF, diskF, results)

/-- The line loop of read_inbox.  A line is none when it is blank or
its JSON fails to parse (both are skipped by the source: the blank
test and the try/except around json.loads).  decode is
codec.decode_envelopes, applied when the entry has no envelopes list
but has text. -/
def processLines (sha : List Nat → String) (verify : String → String → List Nat → Bool)
    (veri : Env → List (String × String) → Option Bool)
    (decode : String → List Env)
    (now : Nat) (fl : Filters) (simple : List (String × String))
    (readNonces : List String) :
    List (Option Entry) → List (String × Record) → List (String × Record) →
    Except PyErr (List (String × Record) × List (String × Record) × List InboxResult)
  | [], mem, disk => .ok (mem, disk, [])
  | none :: rest, mem, disk =>
      processLines sha verify veri decode now fl simple readNonces rest mem disk
  | some entry :: rest, mem, disk =>
      let envs :=
        if entry.envelopes ≠ [] then entry.envelopes
        else if entry.text ≠ "" then decode entry.text
        else []
      if envs = [] then
        let keep :=
          !(truthyS fl.kind || truthyS fl.agent_id) &&
          !(truthyN fl.since && decide (entry.received_at < fl.since.getD 0))
        match processLines sha verify veri decode now fl simple readNonces rest mem disk with
        | .error e => .error e
        | .ok (memF, diskF, results) =>
            let results :=
              if keep then
                { entry := entry, envelope := none,
                  verified := none, is_read := false } :: results
              else results
            .ok (memF, diskF, results)
      else
        match processEnvs sha verify veri now fl simple readNonces entry envs mem disk with
        | .error e => .error e
        | .ok (mem', disk', results) =>
            match processLines sha verify veri decode now fl simple readNonces rest mem' disk' with
            | .error e => .error e
            | .ok (memF, diskF, resultsRest) =>
                .ok (memF, diskF, results ++ resultsRest)

/-- read_inbox from src/beacon_skill/inbox.py, over parsed lines of
inbox.jsonl and the persisted stores.  Returns the filtered results,
the known-keys file as left on disk after the final save_known_keys
(which writes the in-memory dict, discarding whatever the scan itself
wrote to the file through rotate_key), and the read-nonce state (which
read_inbox only reads, never writes). -/
def read_inbox (sha : List Nat → String) (verify : String → String → List Nat → Bool)
    (veri : Env → List (String × String) → Option Bool)
    (decode : String → List Env)
    (now : Nat) (fl : Filters)
    (lines : List (Option Entry)) (disk : List (String × Record))
    (readNonces : List String) :
    Except PyErr (List InboxResult × List (String × Record) × List String) :=
  let simple := load_known_keys_simple disk now
  match processLines sha verify veri decode now fl simple readNonces lines disk disk with
  | .error e => .error e
  | .ok (memF, _diskF, results) =>
      let results :=
        match fl.limit with
        | some l => if l ≠ 0 then results.drop (results.length - l) else results
        | none => results
      .ok (results, memF, readNonces)

/-! ## Read-nonce bookkeeping (src/beacon_skill/inbox.py, _save_read_nonce)

For this component the order Python sorted() puts on nonce strings is
what matters, so a Python string is embedded as its list of code
points (PyStr) with the lexicographic order Python uses; pyLt is that
order, executable.  The persisted read_nonces value is a sorted
duplicate-free list (the source writes sorted(nonces)); the in-memory
set is modelled by that same canonical list.  CPython's in-memory
enumeration order of a set (what list(nonces) yields before the slice)
is not determined by the source; it is modelled as the sorted order of
the persisted representation.  No enumeration order could realize
admission-order eviction, because the stored state keeps no admission
times. -/

/-- Python lexicographic order on strings, over code-point lists. -/
def pyLt : List Nat → List Nat → Bool
  | [], [] => false
  | [], _ :: _ => true
  | _ :: _, [] => false
  | a :: as', b :: bs' =>
      if a < b then true
      else if b < a then false
      else pyLt as' bs'

/-- Insert into an ascending sorted list (no duplicate handling; the
caller checks membership first, as set.add is a no-op on members). -/
def insortA (x : List Nat) : List (List Nat) → List (List Nat)
  | [] => [x]
  | h :: t => if pyLt x h then x :: h :: t else h :: insortA x t

/-- The bounding slice of _save_read_nonce: when the set exceeds
10000 nonces, keep the last 10000 of its enumeration (here the sorted
order, so the smallest are dropped). -/
def evict (l : List (List Nat)) : List (List Nat) :=
  if 10000 < l.length then l.drop (l.length - 10000) else l

/-- _save_read_nonce from src/beacon_skill/inbox.py: add the nonce to
the set (a no-op for a member), keep the set bounded, and persist it
sorted. -/
def save_read_nonce (nonces : List (List Nat)) (nonce : List Nat) : List (List Nat) :=
  evict (if nonce ∈ nonces then nonces else insortA nonce nonces)

/-- The singleton-code-point nonce with code point i (concrete
admission histories for claim C8). -/
def nonceA (i : Nat) : List Nat := [i]

/-- A nonce above every nonceA used, admitted first in the C8
history. -/
def bigNonce : List Nat := [20000]

/-- The first k small nonces, in admission order. -/
def Ak (k : Nat) : List (List Nat) := (List.range k).map nonceA

/-- The C8 admission history: bigNonce first, then 10000 ascending
small nonces, overflowing the cap by one. -/
def historyC8 : List (List Nat) := bigNonce :: (List.range 10000).map nonceA

/-- The read-nonce state after admitting historyC8 from an empty
state. -/
def finalNonces : List (List Nat) := historyC8.foldl save_read_nonce []

/-! ## Replay guard

Modelled from the spec: beacon_skill/guard.py is not among the
repository files given (only its test is).  Spec section 4.3: check
gives (admitted, reason); an envelope staler than the freshness window
(about one hour) is rejected independent of nonce state; otherwise an
already-admitted nonce is rejected with reason replay, and a fresh
nonce is admitted with an atomic check-and-insert on the nonce set.
Because the insert is atomic, any truly parallel execution of
concurrent callers is equivalent to some sequential interleaving;
runGuard below runs an arbitrary number of such serialized calls. -/

/-- The freshness window the spec gives for the guard (about one
hour, in seconds). -/
def NONCE_WINDOW : Nat := 3600

/-- The envelope fields the guard consults. -/
structure GuardEnv where
  nonce : String
  ts : Nat
deriving DecidableEq

/-- Modelled from the spec: check_envelope_window of the missing
beacon_skill/guard.py.  Stale timestamps are rejected before and
independent of nonce state; a seen nonce is rejected with reason
replay; otherwise the nonce is admitted and inserted in one atomic
step. -/
def check_envelope_window (now : Nat) (env : GuardEnv) (seen : List String) :
    (Bool × String) × List String :=
  if NONCE_WINDOW ≤ now - env.ts then ((false, "stale"), seen)
  else if env.nonce ∈ seen then ((false, "replay"), seen)
  else ((true, ""), env.nonce :: seen)

/-- n serialized concurrent calls of the guard on one envelope (all
within the same freshness instant), returning every call's result and
the final nonce set. -/
def runGuard (now : Nat) (env : GuardEnv) (seen : List String) :
    Nat → List (Bool × String) × List String
  | 0 => ([], seen)
  | n + 1 =>
      let (r, seen') := check_envelope_window now env seen
      let (rs, seenF) := runGuard now env seen' n
      (r :: rs, seenF)

/-! ## Relay registration/heartbeat state machine

Modelled from the spec: the relay server (the atlas beacon_chat module
the tests import) is not among the repository files given.  Spec
sections 4.6 and 6 give the transition rules, their order, the status
codes and the stable error substrings; section 4.3 gives the staleness
policy applied at nonce admission.  The non-bcn provider carve-out is
heartbeat-only for pre-seeded records, which the heartbeat path covers
as stated.  vSig stands for Ed25519 verification of a signature by a
pubkey over the canonical payload containing the agent id. -/

/-- Token lifetime issued at registration (the spec fixes no value;
one hour, matching the pre-seeded test records). -/
def RELAY_TOKEN_TTL : Nat := 3600

/-- A server-side relay agent record (the fields the ping endpoint
reads or writes). -/
structure RelayRecord where
  pubkey_hex : String
  relay_token : String
  token_expires : Nat
  beat_count : Nat
  registered_at : Nat
  last_heartbeat : Nat
deriving DecidableEq

/-- The relay roster and the per-agent admitted-nonce set. -/
structure RelayState where
  agents : List (String × RelayRecord)
  used : List (String × String)
deriving DecidableEq

/-- A POST /relay/ping request body. -/
structure PingReq where
  agent_id : String
  pubkey_hex : Option String := none
  signature : Option String := none
  relay_token : Option String := none
  nonce : String
  ts : Nat
deriving DecidableEq

/-- Heartbeat authentication: a valid unexpired bearer token, or, when
the record has a pubkey on file, a signature that cryptographically
validates (a well-formed signature that fails verification is
rejected, never treated as absent). -/
def heartbeatAuth (vSig : String → String → String → Bool)
    (now : Nat) (agent_id : String) (rec : RelayRecord) (req : PingReq) : Bool :=
  (match req.relay_token with
   | some t => t ≠ "" && t = rec.relay_token && now < rec.token_expires
   | none => false) ||
  (rec.pubkey_hex ≠ "" &&
   match req.signature with
   | some s => vSig rec.pubkey_hex s agent_id
   | none => false)

/-- Modelled from the spec: the POST /relay/ping handler.  Known agent
ids take the heartbeat path (401 missing credential, 403 invalid
credential, stale rejection, 409 nonce replay, else 200 with
beat_count incremented); unknown ids take the registration path
(missing fields 400, agent-id/pubkey mismatch 400, invalid signature
403, stale rejection, 409 nonce replay, else 201 with a fresh token
and the registration nonce reserved). -/
def handlePing (sha : List Nat → String) (vSig : String → String → String → Bool)
    (newToken : String) (now : Nat) (st : RelayState) (req : PingReq) :
    (Nat × String) × RelayState :=
  match List.lookup req.agent_id st.agents with
  | some rec =>
      if heartbeatAuth vSig now req.agent_id rec req then
        if NONCE_WINDOW ≤ now - req.ts then ((400, "stale timestamp"), st)
        else if (req.agent_id, req.nonce) ∈ st.used then
          ((409, "nonce replay detected"), st)
        else
          ((200, ""),
           { st with
             agents := st.agents.map (fun p =>
               if p.1 = req.agent_id then
                 (p.1, { p.2 with beat_count := p.2.beat_count + 1, last_heartbeat := now })
               else p)
             used := (req.agent_id, req.nonce) :: st.used })
      else if req.relay_token = none ∧ req.signature = none then
        ((401, "missing relay_token"), st)
      else
        ((403, "invalid relay_token or signature"), st)
  | none =>
      match req.pubkey_hex, req.signature with
      | some pk, some s =>
          (match hexDecode pk with
           | none => ((400, "malformed pubkey_hex"), st)
           | some pkBytes =>
               if agent_id_from_pubkey sha pkBytes ≠ req.agent_id then
                 ((400, "agent_id does not match pubkey"), st)
               else if vSig pk s req.agent_id = false then
                 ((403, "invalid signature"), st)
               else if NONCE_WINDOW ≤ now - req.ts then
                 ((400, "stale timestamp"), st)
               else if (req.agent_id, req.nonce) ∈ st.used then
                 ((409, "nonce replay detected"), st)
               else
                 ((201, ""),
                  { agents := (req.agent_id,
                      { pubkey_hex := pk
                        relay_token := newToken
                        token_expires := now + RELAY_TOKEN_TTL
                        beat_count := 0
                        registered_at := now
                        last_heartbeat := now }) :: st.agents
                    used := (req.agent_id, req.nonce) :: st.used }))
      | _, _ => ((400, "missing pubkey_hex or signature"), st)

/-- Run the relay over a sequence of later requests, each with its own
fresh-token supply and arrival time. -/
def runRelay (sha : List Nat → String) (vSig : String → String → String → Bool)
    (st : RelayState) (evs : List (String × Nat × PingReq)) : RelayState :=
  evs.foldl (fun s e => (handlePing sha vSig e.1 e.2.1 s e.2.2).2) st

/-! ## Concrete instantiations of the external-library parameters,
used by witnesses and counterexamples -/

/-- A concrete stand-in for the SHA-256 hex digest: every input hashes
to a fixed 12-character digest, so bcn_xxxxxxxxxxxx is the derived id
of every key.  Used only to instantiate concrete scenarios. -/
def shaX : List Nat → String := fun _ => "xxxxxxxxxxxx"

/-- A verifier that accepts every signature (the concrete scenario
where verification succeeds). -/
def vTrue : String → String → List Nat → Bool := fun _ _ _ => true

/-- An envelope verifier returning the undecidable tri-state. -/
def veriNone : Env → List (String × String) → Option Bool := fun _ _ => none

/-- A codec that decodes no envelopes from raw text. -/
def decodeNil : String → List Env := fun _ => []

/-- A relay signature checker that accepts everything. -/
def vSigTrue : String → String → String → Bool := fun _ _ _ => true

/-- A store record holding pubkey aa. -/
def recAA : Record :=
  { pubkey_hex := "aa", first_seen := 5, last_seen := 5,
    rotation_count := 0, previous_keys := [], ttl_seconds := DEFAULT_KEY_TTL_SECONDS }

/-- A one-agent key store trusting aa for bcn_a. -/
def storeAA : List (String × Record) := [("bcn_a", recAA)]

/-- An inbox line whose embedded envelope carries a malformed hex
pubkey field (the concrete MalformedInput of claim C7). -/
def badHexEntry : Entry := { envelopes := [{ agent_id := "a", pubkey := "zz" }] }

/-- The record trusted for bcn_xxxxxxxxxxxx before an auto-learn
rotation. -/
def oldRecX : Record :=
  { pubkey_hex := "aa", first_seen := 5, last_seen := 5,
    rotation_count := 0, previous_keys := [], ttl_seconds := DEFAULT_KEY_TTL_SECONDS }

/-- An envelope announcing a new key bb for bcn_xxxxxxxxxxxx with a
rotation signature. -/
def rotEnv : Env := { agent_id := "bcn_xxxxxxxxxxxx", pubkey := "bb", sig := "00" }

/-- The key store on disk before the scan of claim C9. -/
def diskC9 : List (String × Record) := [("bcn_xxxxxxxxxxxx", oldRecX)]

/-- The empty relay state. -/
def st0R : RelayState := { agents := [], used := [] }

/-- A registration request for the agent id every key derives to under
shaX. -/
def regReq : PingReq :=
  { agent_id := "bcn_xxxxxxxxxxxx", pubkey_hex := some "aa",
    signature := some "s0", nonce := "n1", ts := 50 }

/-- A heartbeat reusing the registration nonce with the issued
token. -/
def hbReq : PingReq :=
  { agent_id := "bcn_xxxxxxxxxxxx", relay_token := some "tok1", nonce := "n1", ts := 50 }

/-- A request reusing the admitted nonce with neither token nor
signature. -/
def bareReq : PingReq := { agent_id := "bcn_xxxxxxxxxxxx", nonce := "n1", ts := 50 }

/-- A registration claiming bcn_victim with a pubkey that does not
derive to it. -/
def mismatchReq : PingReq :=
  { agent_id := "bcn_victim", pubkey_hex := some "22",
    signature := some "00", nonce := "n2", ts := 50 }

/-! ## Store invariants (claim C10) -/

/-- The per-record invariant: first_seen at or before last_seen, and
no duplicate superseded keys. -/
def KeyInv (store : List (String × Record)) : Prop :=
  ∀ p ∈ store, p.2.first_seen ≤ p.2.last_seen ∧ p.2.previous_keys.Nodup

/-- Clock sanity: no stored first_seen lies in the future of now. -/
def TimeLE (store : List (String × Record)) (now : Nat) : Prop :=
  ∀ p ∈ store, p.2.first_seen ≤ now

/-! # Theorems -/

/-! ### Store helper lemmas -/

theorem mem_updS {k : String} {v : Record} {p : String × Record} :
    ∀ {l : List (String × Record)}, p ∈ updS k v l → p = (k, v) ∨ p ∈ l := by
  intro l
  induction l with
  | nil => intro hm; simpa [updS] using hm
  | cons q t ih =>
      rcases q with ⟨k', v'⟩
      intro hm
      by_cases hk : k = k'
      · simp only [updS, if_pos hk] at hm
        rcases List.mem_cons.mp hm with hm | hm
        · exact Or.inl hm
        · exact Or.inr (List.mem_cons_of_mem _ hm)
      · simp only [updS, if_neg hk] at hm
        rcases List.mem_cons.mp hm with hm | hm
        · exact Or.inr (by simp [hm])
        · rcases ih hm with hm' | hm'
          · exact Or.inl hm'
          · exact Or.inr (List.mem_cons_of_mem _ hm')

theorem mem_delS {k : String} {p : String × Record} :
    ∀ {l : List (String × Record)}, p ∈ delS k l → p ∈ l := by
  intro l
  induction l with
  | nil => intro hm; simp [delS] at hm
  | cons q t ih =>
      rcases q with ⟨k', v'⟩
      intro hm
      by_cases hk : k = k'
      · simp only [delS, if_pos hk] at hm
        exact List.mem_cons_of_mem _ hm
      · simp only [delS, if_neg hk] at hm
        rcases List.mem_cons.mp hm with hm | hm
        · simp [hm]
        · exact List.mem_cons_of_mem _ (ih hm)

theorem mem_of_lookupS {k : String} {r : Record} :
    ∀ {l : List (String × Record)}, List.lookup k l = some r → (k, r) ∈ l := by
  intro l
  induction l with
  | nil => intro hm; simp [List.lookup] at hm
  | cons q t ih =>
      rcases q with ⟨k', v'⟩
      intro hm
      by_cases hk : k = k'
      · subst hk
        simp [List.lookup] at hm
        simp [hm]
      · rw [List.lookup] at hm
        rw [show (k == k') = false from beq_eq_false_iff_ne.mpr hk] at hm
        exact List.mem_cons_of_mem _ (ih hm)

/-! ### Claim C3: an existing trusted key is never overwritten by a
bare claim of a different key -/

/-- C3: if a record exists for agent_id with stored pubkey A, then
trust_key with any different key B and allow_rotate false returns
false and leaves the whole store (in particular the stored record)
unchanged. -/
theorem trust_key_refuses_unsigned_rotation
    (store : List (String × Record)) (now : Nat) (agent_id A B : String)
    (r : Record) (hlook : List.lookup agent_id store = some r)
    (hA : r.pubkey_hex = A) (hBA : B ≠ A) :
    trust_key store now agent_id B false = (false, store) := by
  unfold trust_key
  rw [hlook]
  have hne : r.pubkey_hex ≠ B := by rw [hA]; exact fun h => hBA h.symm
  simp [hne]

/-- C3 witness: the concrete scenario of the spec scenario list, with
pubkey aa trusted and bb claimed. -/
theorem trust_key_refuses_unsigned_rotation_witness :
    trust_key storeAA 7 "bcn_a" "bb" false = (false, storeAA) :=
  trust_key_refuses_unsigned_rotation storeAA 7 "bcn_a" "aa" "bb" recAA
    (by decide) (by decide) (by decide)

/-! ### Claim C4: rotate_key success condition and effect -/

/-- C4 counterexample: rotating to the pubkey already stored, with a
signature the old key verifies (with Ed25519 a key signs its own bytes
verifiably, modelled by the accepting verifier), returns true but
leaves rotation_count at 0 and previous_keys empty: the claimed
increment-by-1 and move-to-previous_keys do not happen on this
successful call. -/
theorem rotate_key_same_key_success_no_increment :
    rotate_key vTrue storeAA 6 "bcn_a" "aa" [0] =
      (true, [("bcn_a", { recAA with last_seen := 6 })]) := by decide

/-- C4 amended: rotate_key returns true iff a record exists whose
stored pubkey is nonempty, the new pubkey hex decodes, and the
signature verifies against the stored pubkey over the new pubkey
bytes; any failure leaves the store unchanged; a success installs the
new key with rotation_count incremented and the old key appended to
previous_keys when the new key differs from the stored one, and merely
refreshes last_seen when it is the same key. -/
theorem rotate_key_characterization
    (verify : String → String → List Nat → Bool)
    (store : List (String × Record)) (now : Nat)
    (agent_id new_pubkey_hex : String) (sig : List Nat) :
    ((rotate_key verify store now agent_id new_pubkey_hex sig).1 = true ↔
      ∃ r bs, List.lookup agent_id store = some r ∧ r.pubkey_hex ≠ "" ∧
        hexDecode new_pubkey_hex = some bs ∧
        verify r.pubkey_hex (hexEncode sig) bs = true)
    ∧ ((rotate_key verify store now agent_id new_pubkey_hex sig).1 = false →
        (rotate_key verify store now agent_id new_pubkey_hex sig).2 = store)
    ∧ (∀ r, List.lookup agent_id store = some r →
        (rotate_key verify store now agent_id new_pubkey_hex sig).1 = true →
        (new_pubkey_hex ≠ r.pubkey_hex →
           (rotate_key verify store now agent_id new_pubkey_hex sig).2 =
             updS agent_id
               { pubkey_hex := new_pubkey_hex
                 first_seen := r.first_seen
                 last_seen := now
                 rotation_count := r.rotation_count + 1
                 previous_keys :=
                   if r.pubkey_hex ∈ r.previous_keys then r.previous_keys
                   else r.previous_keys ++ [r.pubkey_hex]
                 ttl_seconds := r.ttl_seconds } store)
         ∧ (new_pubkey_hex = r.pubkey_hex →
           (rotate_key verify store now agent_id new_pubkey_hex sig).2 =
             updS agent_id { r with last_seen := now } store)) := by
  cases hl : List.lookup agent_id store with
  | none =>
      have hrot : rotate_key verify store now agent_id new_pubkey_hex sig = (false, store) := by
        simp [rotate_key, hl]
      refine ⟨?_, fun _ => by rw [hrot], ?_⟩
      · rw [hrot]
        simp only [Bool.false_eq_true, false_iff]
        rintro ⟨r', bs, hr', -⟩
        cases hr'
      · intro r' hr'
        cases hr'
  | some r =>
      by_cases hemp : r.pubkey_hex = ""
      · have hrot : rotate_key verify store now agent_id new_pubkey_hex sig = (false, store) := by
          simp [rotate_key, hl, hemp]
        refine ⟨?_, fun _ => by rw [hrot], ?_⟩
        · rw [hrot]
          simp only [Bool.false_eq_true, false_iff]
          rintro ⟨r', bs, hr', hne, -⟩
          cases hr'
          exact hne hemp
        · intro r' hr' htrue
          rw [hrot] at htrue
          exact absurd htrue (by simp)
      · cases hd : hexDecode new_pubkey_hex with
        | none =>
            have hrot : rotate_key verify store now agent_id new_pubkey_hex sig = (false, store) := by
              simp [rotate_key, hl, hemp, hd]
            refine ⟨?_, fun _ => by rw [hrot], ?_⟩
            · rw [hrot]
              simp only [Bool.false_eq_true, false_iff]
              rintro ⟨r', bs, hr', -, hbs, -⟩
              cases hbs
            · intro r' hr' htrue
              rw [hrot] at htrue
              exact absurd htrue (by simp)
        | some bs =>
            by_cases hv : verify r.pubkey_hex (hexEncode sig) bs = true
            · have hres : rotate_key verify store now agent_id new_pubkey_hex sig =
                  trust_key store now agent_id new_pubkey_hex true := by
                simp [rotate_key, hl, hemp, hd, hv]
              by_cases hsame : r.pubkey_hex = new_pubkey_hex
              · have htk : trust_key store now agent_id new_pubkey_hex true =
                    (true, updS agent_id { r with last_seen := now } store) := by
                  simp [trust_key, hl, hsame]
                refine ⟨?_, ?_, ?_⟩
                · rw [hres, htk]
                  simp only [true_iff]
                  exact ⟨r, bs, rfl, hemp, rfl, hv⟩
                · intro hfalse
                  rw [hres, htk] at hfalse
                  exact absurd hfalse (by simp)
                · rintro r' hr' -
                  cases hr'
                  refine ⟨fun hne => absurd hsame.symm hne, fun _ => by rw [hres, htk]⟩
              · have htk : trust_key store now agent_id new_pubkey_hex true =
                    (true, updS agent_id
                      { pubkey_hex := new_pubkey_hex
                        first_seen := r.first_seen
                        last_seen := now
                        rotation_count := r.rotation_count + 1
                        previous_keys :=
                          if r.pubkey_hex ∈ r.previous_keys then r.previous_keys
                          else r.previous_keys ++ [r.pubkey_hex]
                        ttl_seconds := r.ttl_seconds } store) := by
                  by_cases hmem : r.pubkey_hex ∈ r.previous_keys
                  · simp [trust_key, hl, hsame, hemp, hmem]
                  · simp [trust_key, hl, hsame, hemp, hmem]
                refine ⟨?_, ?_, ?_⟩
                · rw [hres, htk]
                  simp only [true_iff]
                  exact ⟨r, bs, rfl, hemp, rfl, hv⟩
                · intro hfalse
                  rw [hres, htk] at hfalse
                  exact absurd hfalse (by simp)
                · rintro r' hr' -
                  cases hr'
                  refine ⟨fun _ => by rw [hres, htk], fun heq => absurd heq.symm hsame⟩
            · have hrot : rotate_key verify store now agent_id new_pubkey_hex sig = (false, store) := by
                simp only [rotate_key, hl, hd]
                rw [if_neg hemp, if_neg hv]
              refine ⟨?_, fun _ => by rw [hrot], ?_⟩
              · rw [hrot]
                simp only [Bool.false_eq_true, false_iff]
                rintro ⟨r', bs', hr', -, hbs', hv'⟩
                cases hr'
                cases hbs'
                exact hv hv'
              · intro r' hr' htrue
                rw [hrot] at htrue
                exact absurd htrue (by simp)

/-! ### Claim C6: identity derivation is one pure function of the key
bytes, on hex input and byte input alike -/

theorem hexDigit_roundtrip : ∀ n, n < 16 → hexDigitVal (hexDigitChar n) = some n := by
  decide

theorem hexDecode_hexEncode (bs : List Nat) (hb : ∀ x ∈ bs, x < 256) :
    hexDecode (hexEncode bs) = some bs := by
  show hexDecodeChars (hexEncodeChars bs) = some bs
  induction bs with
  | nil => rfl
  | cons b t ih =>
      have hb256 : b < 256 := hb b (by simp)
      have h1 : b / 16 < 16 := by omega
      have h2 : b % 16 < 16 := by omega
      have iht := ih (fun x hx => hb x (by simp [hx]))
      simp only [hexEncodeChars, hexDecodeChars,
        hexDigit_roundtrip _ h1, hexDigit_roundtrip _ h2, iht,
        Option.bind_eq_bind, Option.some_bind, Option.some.injEq, bind, pure]
      have hdm : 16 * (b / 16) + b % 16 = b := by omega
      rw [hdm]

/-- C6: the server-side derivation of src/fix_ping_security.py applied
to the hex encoding of the key bytes agrees with the client-side
byte-level derivation (one pure function on both sides), and that
function is bcn_ plus the first 12 characters of the SHA-256 hex
digest. -/
theorem agent_id_same_pure_function (sha : List Nat → String)
    (bs : List Nat) (hb : ∀ x ∈ bs, x < 256) :
    agent_id_from_pubkey_hex sha (hexEncode bs) = some (agent_id_from_pubkey sha bs) ∧
    agent_id_from_pubkey sha bs = "bcn_" ++ (sha bs).take 12 := by
  refine ⟨?_, rfl⟩
  unfold agent_id_from_pubkey_hex
  rw [hexDecode_hexEncode bs hb]
  rfl

/-- C6 witness: a concrete two-byte key under the concrete digest
function. -/
theorem agent_id_same_pure_function_witness :
    agent_id_from_pubkey_hex shaX (hexEncode [17, 34]) = some (agent_id_from_pubkey shaX [17, 34]) ∧
    agent_id_from_pubkey shaX [17, 34] = "bcn_" ++ (shaX [17, 34]).take 12 :=
  agent_id_same_pure_function shaX [17, 34] (by decide)

/-! ### Claim C10: every key-store mutator preserves the record
invariant (first_seen at or before last_seen, no duplicate
previous_keys) -/

theorem nodup_append_singleton {α : Type} {l : List α} {a : α}
    (h : l.Nodup) (ha : a ∉ l) : (l ++ [a]).Nodup := by
  rw [List.nodup_append]
  refine ⟨h, List.nodup_singleton a, ?_⟩
  intro x hx hxa
  rw [List.mem_singleton] at hxa
  subst hxa
  exact ha hx

theorem trust_key_preserves_inv (store : List (String × Record)) (now : Nat)
    (agent_id pubkey_hex : String) (allow_rotate : Bool)
    (hinv : KeyInv store) (ht : TimeLE store now) :
    KeyInv (trust_key store now agent_id pubkey_hex allow_rotate).2 := by
  unfold trust_key
  cases hl : List.lookup agent_id store with
  | none =>
      intro p hp
      rcases mem_updS hp with hp | hp
      · subst hp; exact ⟨le_refl _, List.nodup_nil⟩
      · exact hinv p hp
  | some r =>
      have hmemr : (agent_id, r) ∈ store := mem_of_lookupS hl
      dsimp only
      by_cases hsame : r.pubkey_hex = pubkey_hex
      · rw [if_pos hsame]
        intro p hp
        rcases mem_updS hp with hp | hp
        · subst hp
          exact ⟨ht (agent_id, r) hmemr, (hinv (agent_id, r) hmemr).2⟩
        · exact hinv p hp
      · rw [if_neg hsame]
        by_cases har : allow_rotate = false
        · rw [if_pos har]
          exact hinv
        · rw [if_neg har]
          intro p hp
          rcases mem_updS hp with hp | hp
          · subst hp
            refine ⟨ht (agent_id, r) hmemr, ?_⟩
            by_cases hc : r.pubkey_hex ≠ "" ∧ r.pubkey_hex ∉ r.previous_keys
            · simp only [if_pos hc]
              exact nodup_append_singleton (hinv (agent_id, r) hmemr).2 hc.2
            · simp only [if_neg hc]
              exact (hinv (agent_id, r) hmemr).2
          · exact hinv p hp

theorem revoke_key_preserves_inv (store : List (String × Record)) (agent_id : String)
    (hinv : KeyInv store) : KeyInv (revoke_key store agent_id).2 := by
  unfold revoke_key
  cases List.lookup agent_id store with
  | none => exact hinv
  | some r => exact fun p hp => hinv p (mem_delS hp)

theorem rotate_key_preserves_inv (verify : String → String → List Nat → Bool)
    (store : List (String × Record)) (now : Nat)
    (agent_id new_pubkey_hex : String) (sig : List Nat)
    (hinv : KeyInv store) (ht : TimeLE store now) :
    KeyInv (rotate_key verify store now agent_id new_pubkey_hex sig).2 := by
  unfold rotate_key
  cases List.lookup agent_id store with
  | none => exact hinv
  | some r =>
      dsimp only
      by_cases hemp : r.pubkey_hex = ""
      · rw [if_pos hemp]; exact hinv
      · rw [if_neg hemp]
        cases hexDecode new_pubkey_hex with
        | none => exact hinv
        | some bs =>
            by_cases hv : verify r.pubkey_hex (hexEncode sig) bs
            · simp only [if_pos hv]
              exact trust_key_preserves_inv store now agent_id new_pubkey_hex true hinv ht
            · simp only [if_neg hv]
              exact hinv

theorem learnKey_preserves_inv (sha : List Nat → String)
    (verify : String → String → List Nat → Bool) (now : Nat) (env : Env)
    (mem disk : List (String × Record))
    (hm : KeyInv mem) (hd : KeyInv disk) (htm : TimeLE mem now) (htd : TimeLE disk now) :
    ∀ mem' disk', learnKey sha verify now env mem disk = .ok (mem', disk') →
      KeyInv mem' ∧ KeyInv disk' := by
  intro mem' disk' hok
  unfold learnKey at hok
  by_cases hg : env.agent_id ≠ "" ∧ env.pubkey ≠ ""
  · rw [if_pos hg] at hok
    cases hdc : hexDecode env.pubkey with
    | none => rw [hdc] at hok; exact absurd hok (by simp)
    | some pkB =>
        rw [hdc] at hok
        dsimp only at hok
        by_cases hid : agent_id_from_pubkey sha pkB = env.agent_id
        · rw [if_pos hid] at hok
          cases hlm : List.lookup env.agent_id mem with
          | none =>
              rw [hlm] at hok
              dsimp only at hok
              injection hok with hok
              injection hok with h1 h2
              constructor
              · rw [← h1]
                intro p hp
                rcases mem_updS hp with hp | hp
                · subst hp; exact ⟨le_refl _, List.nodup_nil⟩
                · exact hm p hp
              · rw [← h2]; exact hd
          | some existing =>
              have hmemr : (env.agent_id, existing) ∈ mem := mem_of_lookupS hlm
              rw [hlm] at hok
              dsimp only at hok
              by_cases hsame : existing.pubkey_hex = env.pubkey
              · rw [if_pos hsame] at hok
                injection hok with hok
                injection hok with h1 h2
                constructor
                · rw [← h1]
                  intro p hp
                  rcases mem_updS hp with hp | hp
                  · subst hp
                    exact ⟨htm (env.agent_id, existing) hmemr, (hm (env.agent_id, existing) hmemr).2⟩
                  · exact hm p hp
                · rw [← h2]; exact hd
              · rw [if_neg hsame] at hok
                by_cases hsig : env.sig ≠ ""
                · rw [if_pos hsig] at hok
                  cases hds : hexDecode env.sig with
                  | none => rw [hds] at hok; exact absurd hok (by simp)
                  | some sigB =>
                      rw [hds] at hok
                      dsimp only at hok
                      injection hok with hok
                      injection hok with h1 h2
                      constructor
                      · rw [← h1]; exact hm
                      · rw [← h2]
                        exact rotate_key_preserves_inv verify disk now env.agent_id env.pubkey sigB hd htd
                · rw [if_neg hsig] at hok
                  injection hok with hok
                  injection hok with h1 h2
                  exact ⟨h1 ▸ hm, h2 ▸ hd⟩
        · rw [if_neg hid] at hok
          injection hok with hok
          injection hok with h1 h2
          exact ⟨h1 ▸ hm, h2 ▸ hd⟩
  · rw [if_neg hg] at hok
    injection hok with hok
    injection hok with h1 h2
    exact ⟨h1 ▸ hm, h2 ▸ hd⟩

/-- C10: trust_key, revoke_key, rotate_key and the auto-learn path of
read_inbox all preserve the per-record invariant (first_seen at or
before last_seen, previous_keys duplicate-free), for any present store
state satisfying it and any clock at or after the stored first_seen
times. -/
theorem key_store_mutators_preserve_invariants
    (sha : List Nat → String) (verify : String → String → List Nat → Bool)
    (store mem disk : List (String × Record)) (now : Nat)
    (agent_id pubkey_hex : String) (allow_rotate : Bool)
    (sig : List Nat) (env : Env) :
    (KeyInv store → TimeLE store now →
       KeyInv (trust_key store now agent_id pubkey_hex allow_rotate).2)
    ∧ (KeyInv store → KeyInv (revoke_key store agent_id).2)
    ∧ (KeyInv store → TimeLE store now →
       KeyInv (rotate_key verify store now agent_id pubkey_hex sig).2)
    ∧ (KeyInv mem → KeyInv disk → TimeLE mem now → TimeLE disk now →
       ∀ mem' disk', learnKey sha verify now env mem disk = .ok (mem', disk') →
         KeyInv mem' ∧ KeyInv disk') :=
  ⟨fun hinv ht => trust_key_preserves_inv store now agent_id pubkey_hex allow_rotate hinv ht,
   fun hinv => revoke_key_preserves_inv store agent_id hinv,
   fun hinv ht => rotate_key_preserves_inv verify store now agent_id pubkey_hex sig hinv ht,
   fun hm hd htm htd => learnKey_preserves_inv sha verify now env mem disk hm hd htm htd⟩

/-! ### Claim C7: the scan is supposed to recover from malformed
input, but a malformed hex pubkey in an envelope raises out of
read_inbox (the two bytes.fromhex calls in _learn_key_from_envelope
are unguarded) -/

/-- C7: evaluating read_inbox at the failing input: one well-formed
JSON line whose envelope has the non-hex pubkey zz makes the whole
call raise ValueError instead of skipping the envelope. -/
theorem read_inbox_raises_on_malformed_hex_pubkey :
    read_inbox shaX vTrue veriNone decodeNil 0 {} [some badHexEntry] [] [] =
      .error .valueError := by
  rfl

/-! ### Claim C9: the final save of read_inbox overwrites a rotation
the scan itself performed -/

/-- C9: evaluating read_inbox at the failing input.  The scan sees a
valid rotation envelope for bcn_xxxxxxxxxxxx (new key bb, signature
accepted), and rotate_key applied to the on-disk store does install
the rotated record, as the second conjunct shows; but read_inbox
returns the known-keys file as finally saved from its in-memory dict,
which still holds the old record with pubkey aa: the updated key was
persisted mid-scan and then overwritten by the final save. -/
theorem read_inbox_discards_scan_rotation :
    read_inbox shaX vTrue veriNone decodeNil 9 {} [some { envelopes := [rotEnv] }] diskC9 [] =
      .ok ([{ entry := { envelopes := [rotEnv] }, envelope := some rotEnv,
              verified := none, is_read := false }],
           diskC9, []) ∧
    rotate_key vTrue diskC9 9 "bcn_xxxxxxxxxxxx" "bb" [0] =
      (true, [("bcn_xxxxxxxxxxxx",
        { pubkey_hex := "bb", first_seen := 5, last_seen := 9, rotation_count := 1,
          previous_keys := ["aa"], ttl_seconds := DEFAULT_KEY_TTL_SECONDS })]) := by
  exact ⟨rfl, rfl⟩

/-! ### Claim C8: the read-nonce set is bounded at 10000; the claimed
FIFO eviction of the first-admitted nonces does not hold -/

theorem pyLt_single (a b : Nat) : pyLt [a] [b] = decide (a < b) := by
  by_cases h : a < b
  · simp [pyLt, h]
  · by_cases h2 : b < a
    · simp [pyLt, h, h2]
    · simp [pyLt, h, h2]

theorem pyLt_asymm : ∀ a b : List Nat, pyLt a b = true → pyLt b a = false := by
  intro a
  induction a with
  | nil =>
      intro b hb
      cases b with
      | nil => simp [pyLt] at hb
      | cons y ys => simp [pyLt]
  | cons x xs ih =>
      intro b hb
      cases b with
      | nil => simp [pyLt] at hb
      | cons y ys =>
          by_cases h1 : x < y
          · have h2 : ¬ y < x := by omega
            simp [pyLt, h1, h2]
          · by_cases h2 : y < x
            · simp [pyLt, h1, h2] at hb
            · simp only [pyLt, if_neg h1, if_neg h2] at hb
              simp only [pyLt, if_neg h2, if_neg h1]
              exact ih ys hb

theorem mem_insortA {x y : List Nat} :
    ∀ {l : List (List Nat)}, y ∈ insortA x l → y = x ∨ y ∈ l := by
  intro l
  induction l with
  | nil => intro hm; simpa [insortA] using hm
  | cons h t ih =>
      intro hm
      by_cases hlt : pyLt x h = true
      · simp only [insortA, if_pos hlt] at hm
        rcases List.mem_cons.mp hm with hm | hm
        · exact Or.inl hm
        · exact Or.inr hm
      · simp only [insortA, if_neg hlt] at hm
        rcases List.mem_cons.mp hm with hm | hm
        · exact Or.inr (by simp [hm])
        · rcases ih hm with hm' | hm'
          · exact Or.inl hm'
          · exact Or.inr (List.mem_cons_of_mem _ hm')

theorem insortA_snoc (x z : List Nat) :
    ∀ l : List (List Nat), (∀ y ∈ l, pyLt y x = true) → pyLt x z = true →
      insortA x (l ++ [z]) = l ++ [x, z] := by
  intro l
  induction l with
  | nil =>
      intro _ hxz
      simp [insortA, hxz]
  | cons h t ih =>
      intro hall hxz
      have hhx : pyLt h x = true := hall h (by simp)
      have hxh : pyLt x h = false := pyLt_asymm h x hhx
      simp only [List.cons_append, insortA, hxh, Bool.false_eq_true, if_false, List.cons.injEq,
        true_and]
      exact ih (fun y hy => hall y (by simp [hy])) hxz

theorem evict_small (l : List (List Nat)) (h : l.length ≤ 10000) : evict l = l := by
  unfold evict
  rw [if_neg (by omega)]

theorem Ak_succ (k : Nat) : Ak (k + 1) = Ak k ++ [nonceA k] := by
  simp [Ak, List.range_succ]

/-- One overflow-free admission step of the C8 history: the k-th small
nonce lands just before bigNonce in the sorted state. -/
theorem save_step (k : Nat) (hk : k < 10000) :
    save_read_nonce (Ak k ++ [bigNonce]) (nonceA k) = evict (Ak (k + 1) ++ [bigNonce]) := by
  have hmemf : nonceA k ∉ Ak k ++ [bigNonce] := by
    intro hmem
    rcases List.mem_append.mp hmem with hmem | hmem
    · rcases List.mem_map.mp hmem with ⟨i, hi, hin⟩
      have hik : i = k := by simpa [nonceA] using hin
      subst hik
      exact absurd (List.mem_range.mp hi) (lt_irrefl i)
    · rw [List.mem_singleton] at hmem
      have : k = 20000 := by simpa [nonceA, bigNonce] using hmem
      omega
  have hall : ∀ y ∈ Ak k, pyLt y (nonceA k) = true := by
    intro y hy
    rcases List.mem_map.mp hy with ⟨i, hi, hin⟩
    have hik : i < k := List.mem_range.mp hi
    rw [← hin, show nonceA i = [i] from rfl, show nonceA k = [k] from rfl, pyLt_single]
    simpa using hik
  have hxz : pyLt (nonceA k) bigNonce = true := by
    rw [show nonceA k = [k] from rfl, show bigNonce = [20000] from rfl, pyLt_single]
    simp only [decide_eq_true_eq]
    omega
  unfold save_read_nonce
  rw [if_neg hmemf, insortA_snoc _ _ _ hall hxz]
  have hsplit : Ak k ++ [nonceA k, bigNonce] = Ak (k + 1) ++ [bigNonce] := by
    rw [Ak_succ]
    simp
  rw [hsplit]

theorem foldl_save_Ak : ∀ k, k ≤ 9999 →
    (Ak k).foldl save_read_nonce [bigNonce] = Ak k ++ [bigNonce] := by
  intro k
  induction k with
  | zero => intro _; simp [Ak]
  | succ k ih =>
      intro hk
      have hk' : k ≤ 9999 := Nat.le_of_succ_le hk
      rw [Ak_succ, List.foldl_append, ih hk']
      rw [show (Ak k ++ [nonceA k]) ++ [bigNonce] = Ak (k + 1) ++ [bigNonce] by
        rw [Ak_succ]]
      rw [show List.foldl save_read_nonce (Ak k ++ [bigNonce]) [nonceA k] =
        save_read_nonce (Ak k ++ [bigNonce]) (nonceA k) from rfl]
      rw [save_step k (by omega)]
      apply evict_small
      simp [Ak]
      omega

theorem finalNonces_closed : finalNonces = (Ak 10000).drop 1 ++ [bigNonce] := by
  have h0 : save_read_nonce [] bigNonce = [bigNonce] := rfl
  have hfold : finalNonces = (Ak 10000).foldl save_read_nonce [bigNonce] := by
    unfold finalNonces historyC8
    rw [List.foldl_cons, h0]
    rfl
  rw [hfold, show (10000 : Nat) = 9999 + 1 from rfl, Ak_succ,
    List.foldl_append, foldl_save_Ak 9999 (le_refl _)]
  rw [List.foldl_cons, List.foldl_nil]
  rw [save_step 9999 (by omega)]
  have hlen : (Ak (9999 + 1) ++ [bigNonce]).length = 10001 := by
    simp [Ak]
  unfold evict
  rw [if_pos (by rw [hlen]; omega), hlen]
  rw [show (10001 : Nat) - 10000 = 1 from rfl]
  rw [List.drop_append_of_le_length (by simp [Ak])]
  rw [Ak_succ]

/-- C8 counterexample: after the historyC8 admissions, the
first-admitted nonce (bigNonce) is still in the set while the
second-admitted one (nonceA 0) was evicted, and the set holds exactly
10000 nonces: eviction follows the sorted order of the persisted set,
not admission (FIFO) order, which the state cannot even express since
no admission times are kept. -/
theorem read_nonce_eviction_not_fifo :
    bigNonce ∈ finalNonces ∧ nonceA 0 ∉ finalNonces ∧ finalNonces.length = 10000 := by
  rw [finalNonces_closed]
  refine ⟨List.mem_append.mpr (Or.inr (by simp)), ?_, ?_⟩
  · intro hmem
    rcases List.mem_append.mp hmem with hmem | hmem
    · rw [show (Ak 10000).drop 1 = ((List.range 10000).drop 1).map nonceA from
        (List.map_drop nonceA (List.range 10000) 1).symm] at hmem
      rcases List.mem_map.mp hmem with ⟨i, hi, hin⟩
      have hi0 : i = 0 := by simpa [nonceA] using hin
      subst hi0
      rw [show (10000 : Nat) = 9999 + 1 from rfl, List.range_succ_eq_map] at hi
      simp only [List.drop_succ_cons, List.drop_zero] at hi
      rcases List.mem_map.mp hi with ⟨j, _, hj⟩
      exact Nat.succ_ne_zero j hj
    · rw [List.mem_singleton] at hmem
      simp [nonceA, bigNonce] at hmem
  · have h1 : (Ak 10000).length = 10000 := by simp [Ak]
    simp [List.length_append, List.length_drop, h1]

/-- C8 amended: each save keeps the read-nonce set at or below 10000
entries and introduces no nonce besides the saved one; which entries
are evicted on overflow is decided by the enumeration order of the
stored set (its sorted order here), not by admission order. -/
theorem save_read_nonce_bounded (ns : List (List Nat)) (x : List Nat) :
    (save_read_nonce ns x).length ≤ 10000 ∧
    ∀ y ∈ save_read_nonce ns x, y ∈ ns ∨ y = x := by
  unfold save_read_nonce evict
  constructor
  · by_cases h : 10000 < (if x ∈ ns then ns else insortA x ns).length
    · rw [if_pos h]
      simp only [List.length_drop]
      omega
    · rw [if_neg h]
      omega
  · intro y hy
    have hy' : y ∈ (if x ∈ ns then ns else insortA x ns) := by
      by_cases h : 10000 < (if x ∈ ns then ns else insortA x ns).length
      · rw [if_pos h] at hy
        exact List.mem_of_mem_drop hy
      · rw [if_neg h] at hy
        exact hy
    by_cases hmem : x ∈ ns
    · rw [if_pos hmem] at hy'
      exact Or.inl hy'
    · rw [if_neg hmem] at hy'
      rcases mem_insortA hy' with h | h
      · exact Or.inr h
      · exact Or.inl h

/-! ### Claim C1: the replay guard admits a nonce to exactly one of
any number of concurrent callers -/

/-- C1 counterexample: on a stale envelope (spec section 4.3 rejects
staleness independent of nonce state) no caller is admitted at all,
and the reason is stale, not replay, so the unconditional
exactly-one-admission claim fails. -/
theorem guard_stale_envelope_admits_none :
    (runGuard 3600 { nonce := "shared-nonce", ts := 0 } [] 2).1 =
      [(false, "stale"), (false, "stale")] := by decide

theorem runGuard_replay (now : Nat) (env : GuardEnv) :
    ∀ (n : Nat) (seen : List String), now - env.ts < NONCE_WINDOW → env.nonce ∈ seen →
      runGuard now env seen n = (List.replicate n (false, "replay"), seen) := by
  intro n
  induction n with
  | zero => intro seen _ _; simp [runGuard]
  | succ n ih =>
      intro seen hf hm
      have hc : check_envelope_window now env seen = ((false, "replay"), seen) := by
        unfold check_envelope_window
        rw [if_neg (by omega), if_pos hm]
      simp [runGuard, hc, ih seen hf hm, List.replicate_succ]

/-- C1 amended: for a fresh envelope whose nonce was not admitted
before, exactly the first of any n serialized concurrent calls is
admitted and every other call returns admitted false with reason
replay; the atomic check-and-insert makes every parallel execution one
such serialization. -/
theorem guard_admits_exactly_once (now : Nat) (env : GuardEnv) (seen : List String) (n : Nat)
    (hfresh : now - env.ts < NONCE_WINDOW) (hnew : env.nonce ∉ seen) (hn : 1 ≤ n) :
    (runGuard now env seen n).1 =
      (true, "") :: List.replicate (n - 1) (false, "replay") := by
  cases n with
  | zero => exact absurd hn (by omega)
  | succ m =>
      have hc : check_envelope_window now env seen = ((true, ""), env.nonce :: seen) := by
        unfold check_envelope_window
        rw [if_neg (by omega), if_neg hnew]
      have hr := runGuard_replay now env m (env.nonce :: seen) hfresh (by simp)
      simp [runGuard, hc, hr]

/-- C1 witness: twenty serialized callers racing on one fresh nonce,
as in the concurrency test. -/
theorem guard_admits_exactly_once_witness :
    (runGuard 1000 { nonce := "shared-nonce", ts := 1000 } [] 20).1 =
      (true, "") :: List.replicate 19 (false, "replay") :=
  guard_admits_exactly_once 1000 { nonce := "shared-nonce", ts := 1000 } [] 20
    (by decide) (by decide) (by decide)

/-! ### Claims C2 and C5: the relay ping state machine -/

theorem handlePing_used_mono (sha : List Nat → String)
    (vSig : String → String → String → Bool) (tok : String) (now : Nat)
    (st : RelayState) (req : PingReq) :
    ∀ p ∈ st.used, p ∈ ((handlePing sha vSig tok now st req).2).used := by
  intro p hp
  unfold handlePing
  cases hl : List.lookup req.agent_id st.agents with
  | some rec =>
      dsimp only
      by_cases hauth : heartbeatAuth vSig now req.agent_id rec req = true
      · rw [if_pos hauth]
        by_cases hstale : NONCE_WINDOW ≤ now - req.ts
        · rw [if_pos hstale]; exact hp
        · rw [if_neg hstale]
          by_cases hused : (req.agent_id, req.nonce) ∈ st.used
          · rw [if_pos hused]; exact hp
          · rw [if_neg hused]; exact List.mem_cons_of_mem _ hp
      · rw [if_neg hauth]
        by_cases hcred : req.relay_token = none ∧ req.signature = none
        · rw [if_pos hcred]; exact hp
        · rw [if_neg hcred]; exact hp
  | none =>
      dsimp only
      cases req.pubkey_hex with
      | none => cases req.signature <;> exact hp
      | some pk =>
          cases req.signature with
          | none => exact hp
          | some s =>
              dsimp only
              cases hdc : hexDecode pk with
              | none => exact hp
              | some pkB =>
                  dsimp only
                  by_cases hmm2 : agent_id_from_pubkey sha pkB ≠ req.agent_id
                  · rw [if_pos hmm2]; exact hp
                  · rw [if_neg hmm2]
                    by_cases hs : vSig pk s req.agent_id = false
                    · rw [if_pos hs]; exact hp
                    · rw [if_neg hs]
                      by_cases hstale : NONCE_WINDOW ≤ now - req.ts
                      · rw [if_pos hstale]; exact hp
                      · rw [if_neg hstale]
                        by_cases hused : (req.agent_id, req.nonce) ∈ st.used
                        · rw [if_pos hused]; exact hp
                        · rw [if_neg hused]; exact List.mem_cons_of_mem _ hp

theorem handlePing_reuse_not_accepted (sha : List Nat → String)
    (vSig : String → String → String → Bool) (tok : String) (now : Nat)
    (st : RelayState) (req : PingReq)
    (hused : (req.agent_id, req.nonce) ∈ st.used) :
    (handlePing sha vSig tok now st req).1.1 ≠ 200 ∧
    (handlePing sha vSig tok now st req).1.1 ≠ 201 := by
  unfold handlePing
  cases hl : List.lookup req.agent_id st.agents with
  | some rec =>
      dsimp only
      by_cases hauth : heartbeatAuth vSig now req.agent_id rec req = true
      · rw [if_pos hauth]
        by_cases hstale : NONCE_WINDOW ≤ now - req.ts
        · rw [if_pos hstale]; exact ⟨by simp, by simp⟩
        · rw [if_neg hstale, if_pos hused]; exact ⟨by simp, by simp⟩
      · rw [if_neg hauth]
        by_cases hcred : req.relay_token = none ∧ req.signature = none
        · rw [if_pos hcred]; exact ⟨by simp, by simp⟩
        · rw [if_neg hcred]; exact ⟨by simp, by simp⟩
  | none =>
      dsimp only
      cases req.pubkey_hex with
      | none => cases req.signature <;> exact ⟨by simp, by simp⟩
      | some pk =>
          cases req.signature with
          | none => exact ⟨by simp, by simp⟩
          | some s =>
              dsimp only
              cases hdc : hexDecode pk with
              | none => exact ⟨by simp, by simp⟩
              | some pkB =>
                  dsimp only
                  by_cases hmm2 : agent_id_from_pubkey sha pkB ≠ req.agent_id
                  · rw [if_pos hmm2]; exact ⟨by simp, by simp⟩
                  · rw [if_neg hmm2]
                    by_cases hs : vSig pk s req.agent_id = false
                    · rw [if_pos hs]; exact ⟨by simp, by simp⟩
                    · rw [if_neg hs]
                      by_cases hstale : NONCE_WINDOW ≤ now - req.ts
                      · rw [if_pos hstale]; exact ⟨by simp, by simp⟩
                      · rw [if_neg hstale, if_pos hused]; exact ⟨by simp, by simp⟩

theorem handlePing_accept_inserts (sha : List Nat → String)
    (vSig : String → String → String → Bool) (tok : String) (now : Nat)
    (st : RelayState) (req : PingReq)
    (hacc : (handlePing sha vSig tok now st req).1.1 = 200 ∨
            (handlePing sha vSig tok now st req).1.1 = 201) :
    (req.agent_id, req.nonce) ∈ ((handlePing sha vSig tok now st req).2).used := by
  unfold handlePing at hacc ⊢
  cases hl : List.lookup req.agent_id st.agents with
  | some rec =>
      rw [hl] at hacc
      dsimp only at hacc ⊢
      by_cases hauth : heartbeatAuth vSig now req.agent_id rec req = true
      · rw [if_pos hauth] at hacc ⊢
        by_cases hstale : NONCE_WINDOW ≤ now - req.ts
        · rw [if_pos hstale] at hacc; rcases hacc with h | h <;> simp at h
        · rw [if_neg hstale] at hacc ⊢
          by_cases hused : (req.agent_id, req.nonce) ∈ st.used
          · rw [if_pos hused] at hacc; rcases hacc with h | h <;> simp at h
          · rw [if_neg hused]; exact List.mem_cons_self _ _
      · rw [if_neg hauth] at hacc
        by_cases hcred : req.relay_token = none ∧ req.signature = none
        · rw [if_pos hcred] at hacc; rcases hacc with h | h <;> simp at h
        · rw [if_neg hcred] at hacc; rcases hacc with h | h <;> simp at h
  | none =>
      rw [hl] at hacc
      dsimp only at hacc ⊢
      cases hpk : req.pubkey_hex with
      | none =>
          rw [hpk] at hacc
          cases hs0 : req.signature with
          | none => rw [hs0] at hacc; rcases hacc with h | h <;> simp at h
          | some s => rw [hs0] at hacc; rcases hacc with h | h <;> simp at h
      | some pk =>
          rw [hpk] at hacc
          cases hs0 : req.signature with
          | none => rw [hs0] at hacc; rcases hacc with h | h <;> simp at h
          | some s =>
              rw [hs0] at hacc
              dsimp only at hacc ⊢
              cases hdc : hexDecode pk with
              | none => rw [hdc] at hacc; rcases hacc with h | h <;> simp at h
              | some pkB =>
                  rw [hdc] at hacc
                  dsimp only at hacc ⊢
                  by_cases hmm2 : agent_id_from_pubkey sha pkB ≠ req.agent_id
                  · rw [if_pos hmm2] at hacc; rcases hacc with h | h <;> simp at h
                  · rw [if_neg hmm2] at hacc ⊢
                    by_cases hs : vSig pk s req.agent_id = false
                    · rw [if_pos hs] at hacc; rcases hacc with h | h <;> simp at h
                    · rw [if_neg hs] at hacc ⊢
                      by_cases hstale : NONCE_WINDOW ≤ now - req.ts
                      · rw [if_pos hstale] at hacc; rcases hacc with h | h <;> simp at h
                      · rw [if_neg hstale] at hacc ⊢
                        by_cases hused : (req.agent_id, req.nonce) ∈ st.used
                        · rw [if_pos hused] at hacc; rcases hacc with h | h <;> simp at h
                        · rw [if_neg hused]; exact List.mem_cons_self _ _

theorem runRelay_used_mono (sha : List Nat → String)
    (vSig : String → String → String → Bool) :
    ∀ (evs : List (String × Nat × PingReq)) (st : RelayState),
      ∀ p ∈ st.used, p ∈ (runRelay sha vSig st evs).used := by
  intro evs
  induction evs with
  | nil => intro st p hp; exact hp
  | cons e rest ih =>
      intro st p hp
      simp only [runRelay, List.foldl_cons]
      exact ih _ p (handlePing_used_mono sha vSig e.1 e.2.1 st e.2.2 p hp)

theorem handlePing_reuse_authenticated_409 (sha : List Nat → String)
    (vSig : String → String → String → Bool) (tok : String) (now : Nat)
    (st : RelayState) (req : PingReq) (rec : RelayRecord)
    (hl : List.lookup req.agent_id st.agents = some rec)
    (hused : (req.agent_id, req.nonce) ∈ st.used)
    (hauth : heartbeatAuth vSig now req.agent_id rec req = true)
    (hfresh : now - req.ts < NONCE_WINDOW) :
    handlePing sha vSig tok now st req = ((409, "nonce replay detected"), st) := by
  unfold handlePing
  rw [hl]
  dsimp only
  rw [if_pos hauth, if_neg (by omega), if_pos hused]

/-- C2 amended: a nonce the relay has admitted for an agent (with a
200 heartbeat or a 201 registration) is never admitted again for that
agent, whatever later requests the relay has processed: any request
reusing it is rejected with a non-2xx status, and when that request
authenticates (bearer token or a verifying signature, which an
identical replayed registration payload carries) and is within the
freshness window, the rejection is exactly 409 with the error nonce
replay detected. -/
theorem relay_admitted_nonce_never_readmitted
    (sha : List Nat → String) (vSig : String → String → String → Bool)
    (tok1 tok2 : String) (now1 now2 : Nat) (st0 : RelayState) (req req2 : PingReq)
    (evs : List (String × Nat × PingReq))
    (hadm : (handlePing sha vSig tok1 now1 st0 req).1.1 = 200 ∨
            (handlePing sha vSig tok1 now1 st0 req).1.1 = 201)
    (hagent : req2.agent_id = req.agent_id) (hnonce : req2.nonce = req.nonce) :
    ((handlePing sha vSig tok2 now2
        (runRelay sha vSig (handlePing sha vSig tok1 now1 st0 req).2 evs) req2).1.1 ≠ 200 ∧
     (handlePing sha vSig tok2 now2
        (runRelay sha vSig (handlePing sha vSig tok1 now1 st0 req).2 evs) req2).1.1 ≠ 201) ∧
    (∀ rec, List.lookup req2.agent_id
        (runRelay sha vSig (handlePing sha vSig tok1 now1 st0 req).2 evs).agents = some rec →
      heartbeatAuth vSig now2 req2.agent_id rec req2 = true →
      now2 - req2.ts < NONCE_WINDOW →
      handlePing sha vSig tok2 now2
          (runRelay sha vSig (handlePing sha vSig tok1 now1 st0 req).2 evs) req2 =
        ((409, "nonce replay detected"),
         runRelay sha vSig (handlePing sha vSig tok1 now1 st0 req).2 evs)) := by
  have hu1 : (req.agent_id, req.nonce) ∈ ((handlePing sha vSig tok1 now1 st0 req).2).used :=
    handlePing_accept_inserts sha vSig tok1 now1 st0 req hadm
  have hu2 : (req2.agent_id, req2.nonce) ∈
      (runRelay sha vSig (handlePing sha vSig tok1 now1 st0 req).2 evs).used := by
    rw [hagent, hnonce]
    exact runRelay_used_mono sha vSig evs _ _ hu1
  exact ⟨handlePing_reuse_not_accepted sha vSig tok2 now2 _ req2 hu2,
         fun rec hl hauth hfresh =>
           handlePing_reuse_authenticated_409 sha vSig tok2 now2 _ req2 rec hl hu2 hauth hfresh⟩

/-- C2 witness: a concrete registration whose nonce is immediately
replayed as a first heartbeat bearing the issued token. -/
theorem relay_admitted_nonce_never_readmitted_witness :
    ((handlePing shaX vSigTrue "tok2" 50
        (runRelay shaX vSigTrue (handlePing shaX vSigTrue "tok1" 50 st0R regReq).2 []) hbReq).1.1 ≠ 200 ∧
     (handlePing shaX vSigTrue "tok2" 50
        (runRelay shaX vSigTrue (handlePing shaX vSigTrue "tok1" 50 st0R regReq).2 []) hbReq).1.1 ≠ 201) ∧
    (∀ rec, List.lookup hbReq.agent_id
        (runRelay shaX vSigTrue (handlePing shaX vSigTrue "tok1" 50 st0R regReq).2 []).agents = some rec →
      heartbeatAuth vSigTrue 50 hbReq.agent_id rec hbReq = true →
      50 - hbReq.ts < NONCE_WINDOW →
      handlePing shaX vSigTrue "tok2" 50
          (runRelay shaX vSigTrue (handlePing shaX vSigTrue "tok1" 50 st0R regReq).2 []) hbReq =
        ((409, "nonce replay detected"),
         runRelay shaX vSigTrue (handlePing shaX vSigTrue "tok1" 50 st0R regReq).2 [])) :=
  relay_admitted_nonce_never_readmitted shaX vSigTrue "tok1" "tok2" 50 50 st0R regReq hbReq []
    (Or.inr (by decide)) rfl rfl

/-- C2 counterexample: a second request reusing the admitted nonce but
carrying neither token nor signature is rejected 401 (missing
credential), not 409 with the replay message, so the claim that every
reuse yields 409 nonce replay detected fails; the reuse is still not
admitted. -/
theorem relay_uncredentialed_replay_not_409 :
    (handlePing shaX vSigTrue "tok2" 50
      (handlePing shaX vSigTrue "tok1" 50 st0R regReq).2 bareReq).1 =
      (401, "missing relay_token") := by decide

/-- C5: a registration (unknown agent id) supplying a pubkey that does
not derive to the claimed agent id is rejected 400 with the error
agent_id does not match pubkey, whatever signature is supplied, and
the state is unchanged (the mismatch is never silently corrected). -/
theorem relay_rejects_agent_pubkey_mismatch
    (sha : List Nat → String) (vSig : String → String → String → Bool)
    (tok : String) (now : Nat) (st : RelayState) (req : PingReq)
    (pk s : String) (bs : List Nat)
    (hunknown : List.lookup req.agent_id st.agents = none)
    (hpk : req.pubkey_hex = some pk) (hsig : req.signature = some s)
    (hbs : hexDecode pk = some bs)
    (hmm2 : agent_id_from_pubkey sha bs ≠ req.agent_id) :
    handlePing sha vSig tok now st req = ((400, "agent_id does not match pubkey"), st) := by
  unfold handlePing
  rw [hunknown]
  dsimp only
  rw [hpk, hsig]
  dsimp only
  rw [hbs]
  dsimp only
  rw [if_pos hmm2]

/-- C5 witness: the bcn_victim scenario with a pubkey hashing
elsewhere and an arbitrary signature. -/
theorem relay_rejects_agent_pubkey_mismatch_witness :
    handlePing shaX vSigTrue "tok" 50 st0R mismatchReq =
      ((400, "agent_id does not match pubkey"), st0R) :=
  relay_rejects_agent_pubkey_mismatch shaX vSigTrue "tok" 50 st0R mismatchReq
    "22" "00" [34] rfl rfl rfl (by decide) (by decide)

end Beacon
